import Mathlib

/-!
Verification of the videosift backend core against its specification.

The JavaScript sources are shallowly embedded: pure computations become Lean
functions over `String`, `Nat`, `Int` and `ℚ`; store state becomes explicit
record/list values threaded through the functions; fallible operations return
`Option`.  Modelling conventions used throughout:

* JS strings are modelled as Lean `String`; `.length` is modelled by
  `String.length` (code points) and UTF-8 byte counts by `utf8Len` below.
  All concrete inputs are ASCII, where the two notions of length used by the
  code (UTF-16 units and code points) coincide.
* `Array.prototype.sort` is stable in JS; it is modelled with `List.mergeSort`,
  which is also stable.
* JS `Map` (insertion-ordered) is modelled by an association list in insertion
  order.
* Timestamps (`Date` values) are modelled as integer milliseconds.
-/

/-! ## Shared string helpers -/

/-- UTF-8 byte length of a string, as computed by `Buffer.from(s, 'utf-8').length`. -/
def utf8Len (s : String) : ℕ := (s.data.map Char.utf8Size).sum

/-- A character matched by the JS regex class `\w` (`[A-Za-z0-9_]`). -/
def isWordChar (c : Char) : Bool := c.isAlphanum || c = '_'

/-- `text.toLowerCase().replace(/[^\w\s]/g, ' ')` over the character list:
lower-case every character, then replace everything that is neither a word
character nor whitespace by a space. -/
def normChars (s : String) : List Char :=
  s.data.map (fun c =>
    let c' := c.toLower
    if isWordChar c' || c'.isWhitespace then c' else ' ')

/-- `.split(/\s+/)`: split on maximal whitespace runs.  JS also yields empty
tokens at the two ends when the input starts or ends with whitespace; both
keyword extractors drop all tokens of length ≤ 2, so empty tokens never
survive and are not produced here. -/
def tokenize (s : String) : List String :=
  (((normChars s).splitOnP Char.isWhitespace).filter (· ≠ [])).map List.asString

/-- First-occurrence deduplication, the order produced by
`Array.from(new Set(words))` / `[...new Set(words)]`. -/
def dedupFirstAux (seen : List String) : List String → List String
  | [] => []
  | a :: l => if a ∈ seen then dedupFirstAux seen l else a :: dedupFirstAux (a :: seen) l

def dedupFirst (l : List String) : List String := dedupFirstAux [] l

/-! ## Keyword extraction (chunk side and query side) -/

namespace VideoProcessor

/-- Stop-word set of `VideoProcessor.extractKeywords` (videoProcessor.js). -/
def stopWords : List String :=
  ["the", "a", "an", "and", "or", "but", "in", "on", "at", "to", "for",
   "of", "with", "by", "from", "as", "is", "was", "are", "were", "been"]

/-- The filtered, deduplicated word list of `extractKeywords`, before the
final `.slice(0, 10)`. -/
def keywordCandidates (text : String) : List String :=
  dedupFirst ((tokenize text).filter
    (fun w => decide (3 < w.length) && !(stopWords.contains w)))

/-- `VideoProcessor.extractKeywords` (videoProcessor.js): lowercase, strip
non-word characters to spaces, split on whitespace, keep words of length > 3
not in the stop-word set, deduplicate, take the first 10. -/
def extractKeywords (text : String) : List String :=
  (keywordCandidates text).take 10

end VideoProcessor

namespace RagSearch

/-- Stop-word set of the query-side `extractKeywords` (ragSearch module):
the chunk-side set followed by nine interrogatives. -/
def stopWords : List String :=
  ["the", "a", "an", "and", "or", "but", "in", "on", "at", "to", "for",
   "of", "with", "by", "from", "as", "is", "was", "are", "were", "been",
   "what", "when", "where", "who", "why", "how", "which", "that", "this"]

/-- The nine query-only stop words. -/
def interrogatives : List String :=
  ["what", "when", "where", "who", "why", "how", "which", "that", "this"]

/-- Query-side `extractKeywords` (ragSearch module): same tokenisation, but
keeps words of length > 2, uses the larger stop-word set, and has no
10-element cap. -/
def extractKeywords (text : String) : List String :=
  dedupFirst ((tokenize text).filter
    (fun w => decide (2 < w.length) && !(stopWords.contains w)))

end RagSearch

/-! ### Lemmas about deduplication and filtering -/

theorem dedupFirstAux_filter (p : String → Bool) :
    ∀ (l : List String) (seen₁ seen₂ : List String),
      (∀ w, p w = true → (w ∈ seen₁ ↔ w ∈ seen₂)) →
      (dedupFirstAux seen₁ l).filter p = dedupFirstAux seen₂ (l.filter p) := by
  intro l
  induction l with
  | nil => intro _ _ _; simp [dedupFirstAux]
  | cons a l ih =>
      intro seen₁ seen₂ hsee
      by_cases hpa : p a = true
      · have hmem : a ∈ seen₁ ↔ a ∈ seen₂ := hsee a hpa
        by_cases h1 : a ∈ seen₁
        · have h2 : a ∈ seen₂ := hmem.mp h1
          simp only [dedupFirstAux, if_pos h1, List.filter_cons, hpa, if_pos h2]
          exact ih seen₁ seen₂ hsee
        · have h2 : a ∉ seen₂ := fun h => h1 (hmem.mpr h)
          have hcong : ∀ w, p w = true → (w ∈ a :: seen₁ ↔ w ∈ a :: seen₂) := by
            intro w hw
            simp only [List.mem_cons]
            exact or_congr Iff.rfl (hsee w hw)
          simp only [dedupFirstAux, if_neg h1, List.filter_cons, hpa, if_neg h2]
          simp [hpa, ih (a :: seen₁) (a :: seen₂) hcong]
      · have hpa' : p a = false := by
          cases h : p a with
          | true => exact absurd h hpa
          | false => rfl
        by_cases h1 : a ∈ seen₁
        · simp only [dedupFirstAux, if_pos h1, List.filter_cons, hpa']
          exact ih seen₁ seen₂ hsee
        · have hcong : ∀ w, p w = true → (w ∈ a :: seen₁ ↔ w ∈ seen₂) := by
            intro w hw
            have hwa : w ≠ a := by
              intro h; rw [h] at hw; rw [hw] at hpa'; exact Bool.noConfusion hpa'
            simp only [List.mem_cons]
            constructor
            · rintro (h | h)
              · exact absurd h hwa
              · exact (hsee w hw).mp h
            · intro h
              exact Or.inr ((hsee w hw).mpr h)
          simp only [dedupFirstAux, if_neg h1, List.filter_cons, hpa']
          exact ih (a :: seen₁) seen₂ hcong

theorem dedupFirst_filter (p : String → Bool) (l : List String) :
    (dedupFirst l).filter p = dedupFirst (l.filter p) := by
  exact dedupFirstAux_filter p l [] [] (by intro w _; rfl)

/-- The query-side stop-word list is the chunk-side list followed by the
interrogatives. -/
theorem ragStopWords_eq :
    RagSearch.stopWords = VideoProcessor.stopWords ++ RagSearch.interrogatives := by
  rfl

/-! ### C7: the two keyword extractors -/

/-- C7 counterexample: the chunk-side and query-side keyword extractors are
not extensionally equal; they already disagree on the single word "cat"
(length 3: dropped by the chunk side, kept by the query side). -/
theorem extractKeywords_not_ext_equal :
    VideoProcessor.extractKeywords "cat" ≠ RagSearch.extractKeywords "cat" := by
  decide

/-- C7 amended: the two extractors share the tokenisation pipeline but differ
in three ways: the query side admits length-3 tokens, adds the nine
interrogative stop words, and has no 10-element cap.  After removing the
length-3 tokens from the query side, and the interrogatives and the cap from
the chunk side, the two pipelines agree on every input. -/
theorem extractKeywords_query_vs_chunk (text : String) :
    (RagSearch.extractKeywords text).filter (fun w => decide (3 < w.length))
      = (VideoProcessor.keywordCandidates text).filter
          (fun w => !(RagSearch.interrogatives.contains w)) := by
  unfold RagSearch.extractKeywords VideoProcessor.keywordCandidates
  rw [dedupFirst_filter, dedupFirst_filter, List.filter_filter, List.filter_filter]
  apply congrArg dedupFirst
  apply List.filter_congr
  intro w _
  have hq : (decide (w ∈ RagSearch.stopWords) : Bool)
      = (decide (w ∈ VideoProcessor.stopWords) || decide (w ∈ RagSearch.interrogatives)) := by
    rw [ragStopWords_eq]
    simp [List.mem_append]
  by_cases h3 : 3 < w.length
  · have h2 : 2 < w.length := by omega
    simp [h3, h2, hq, Bool.not_or, Bool.and_assoc, Bool.and_comm, Bool.and_left_comm]
  · simp [h3]

/-! ## The chunker (`VideoProcessor.createChunks`) and the transcript blob -/

/-- A transcript segment as produced by `downloadTranscript`: integer start
and end seconds and the caption text. -/
structure Segment where
  start : ℕ
  endTime : ℕ
  text : String
deriving DecidableEq

/-- `String.prototype.padStart(2, '0')`. -/
def padZero2 (s : String) : String :=
  String.mk (List.replicate (2 - s.length) '0') ++ s

/-- `formatTimestamp` (videoProcessor.js): `M:SS` with seconds zero-padded. -/
def formatTimestamp (seconds : ℕ) : String :=
  toString (seconds / 60) ++ ":" ++ padZero2 (toString (seconds % 60))

/-- One transcript line, as built identically by `createChunks` and
`storeTranscript`. -/
def mkLine (s : Segment) : String :=
  "[" ++ formatTimestamp s.start ++ "] " ++ s.text ++ "\n"

/-- `segment.text.match(/[.!?]$/)` is truthy: the LAST character of the text
(JS `$` without the `m` flag anchors at end of input) is a sentence
terminator. -/
def naturalBreak (t : String) : Bool :=
  match t.data.getLast? with
  | some c => c = '.' || c = '!' || c = '?'
  | none => false

/-- The chunk-cut condition of `createChunks`, tested after appending a
segment line to the buffer. -/
def cutCond (chunkSize : ℕ) (text buf : String) (isLast : Bool) : Bool :=
  (naturalBreak text && decide (chunkSize ≤ buf.length))
    || decide (2000 ≤ buf.length) || isLast

/-- The chunk record pushed by `createChunks`. -/
structure Chunk where
  chunk_index : ℕ
  start_time : ℕ
  end_time : ℕ
  byte_offset : ℕ
  byte_length : ℕ
  text : String
  keywords : List String
deriving DecidableEq

/-- The loop body of `createChunks` as a recursion over the remaining
segments, carrying the mutable variables `byteOffset`, `chunkIndex`,
`currentChunk`, `chunkStartTime`, `chunkEndTime`, `chunkStartOffset`. -/
def chunksFrom (chunkSize : ℕ) (byteOffset idx : ℕ) (cur : String)
    (startT _endT startOff : ℕ) : List Segment → List Chunk
  | [] => []
  | s :: rest =>
    let line := mkLine s
    let startT' := if cur = "" then s.start else startT
    let startOff' := if cur = "" then byteOffset else startOff
    let buf := cur ++ line
    if cutCond chunkSize s.text buf rest.isEmpty then
      ⟨idx, startT', s.endTime, startOff', utf8Len buf, buf,
        VideoProcessor.extractKeywords buf⟩
        :: chunksFrom chunkSize (byteOffset + utf8Len buf) (idx + 1) "" startT'
            s.endTime startOff' rest
    else
      chunksFrom chunkSize byteOffset idx buf startT' s.endTime startOff' rest

/-- `VideoProcessor.createChunks` (videoProcessor.js), default chunk size
1000 characters. -/
def createChunks (transcript : List Segment) (chunkSize : ℕ := 1000) : List Chunk :=
  chunksFrom chunkSize 0 0 "" 0 0 0 transcript

/-- The transcript blob content built by `storeTranscript`: the same
`[M:SS] text\n` lines concatenated in order. -/
def storeTranscriptContent (transcript : List Segment) : String :=
  transcript.foldl (fun content s => content ++ mkLine s) ""

/-- Per-iteration observables of the `createChunks` loop: for each segment,
the buffer right after appending the segment's line, and the value of
`currentChunk` at the end of the iteration (empty exactly when the chunk was
closed there). -/
def chunkStateTrace (chunkSize : ℕ) (cur : String) : List Segment → List (String × String)
  | [] => []
  | s :: rest =>
    let buf := cur ++ mkLine s
    let next := if cutCond chunkSize s.text buf rest.isEmpty then "" else buf
    (buf, next) :: chunkStateTrace chunkSize next rest

/-- The chunker buffer after appending segment `i`, on the default chunk
size. -/
def bufAt (t : List Segment) (i : ℕ) : String :=
  (((chunkStateTrace 1000 "" t).get? i).map Prod.fst).getD ""

/-- Whether the chunker closes the current chunk right after appending
segment `i` (the loop's `currentChunk` is empty at the end of iteration
`i`). -/
def closesAfter (t : List Segment) (i : ℕ) : Bool :=
  decide (((chunkStateTrace 1000 "" t).get? i).map Prod.snd = some "")

theorem mkLine_pos (s : Segment) : 0 < (mkLine s).length := by
  simp only [mkLine, String.length_append]
  have h1 : ("\n" : String).length = 1 := rfl
  omega

theorem bufAppend_ne (cur : String) (s : Segment) : cur ++ mkLine s ≠ "" := by
  intro h
  have h1 : (cur ++ mkLine s).length = 0 := by rw [h]; rfl
  rw [String.length_append] at h1
  have := mkLine_pos s
  omega

theorem chunkStateTrace_closes (chunkSize : ℕ) :
    ∀ (t : List Segment) (cur : String) (i : ℕ) (h : i < t.length),
      (((chunkStateTrace chunkSize cur t).get? i).map Prod.snd = some "") ↔
        ((naturalBreak (t.get ⟨i, h⟩).text = true
            ∧ chunkSize ≤ ((((chunkStateTrace chunkSize cur t).get? i).map Prod.fst).getD "").length)
          ∨ 2000 ≤ ((((chunkStateTrace chunkSize cur t).get? i).map Prod.fst).getD "").length
          ∨ i = t.length - 1) := by
  intro t
  induction t with
  | nil => intro cur i h; exact absurd h (by simp)
  | cons s rest ih =>
      intro cur i h
      cases i with
      | zero =>
          show (some (if cutCond chunkSize s.text (cur ++ mkLine s) rest.isEmpty
                        then "" else (cur ++ mkLine s)) = some "")
              ↔ ((naturalBreak s.text = true ∧ chunkSize ≤ (cur ++ mkLine s).length)
                  ∨ 2000 ≤ (cur ++ mkLine s).length ∨ 0 = (s :: rest).length - 1)
          rw [Option.some_inj]
          have hlen : (s :: rest).length - 1 = rest.length := by
            simp [List.length_cons]
          cases hcut : cutCond chunkSize s.text (cur ++ mkLine s) rest.isEmpty with
          | true =>
              rw [if_pos rfl]
              have hcut' := hcut
              simp only [cutCond, Bool.or_eq_true, Bool.and_eq_true,
                decide_eq_true_eq, List.isEmpty_iff] at hcut'
              constructor
              · intro _
                rcases hcut' with (h1 | h2) | h3
                · exact Or.inl h1
                · exact Or.inr (Or.inl h2)
                · refine Or.inr (Or.inr ?_)
                  rw [hlen, h3]
                  rfl
              · intro _; rfl
          | false =>
              rw [if_neg (by decide : ¬ (false = true))]
              constructor
              · intro heq
                exact absurd heq (bufAppend_ne cur s)
              · intro hyp
                exfalso
                have hcc : cutCond chunkSize s.text (cur ++ mkLine s) rest.isEmpty = true := by
                  simp only [cutCond, Bool.or_eq_true, Bool.and_eq_true,
                    decide_eq_true_eq, List.isEmpty_iff]
                  rcases hyp with h1 | h2 | h3
                  · exact Or.inl (Or.inl h1)
                  · exact Or.inl (Or.inr h2)
                  · refine Or.inr ?_
                    rw [hlen] at h3
                    exact List.length_eq_zero.mp h3.symm
                rw [hcut] at hcc
                exact Bool.noConfusion hcc
      | succ i =>
          have h' : i < rest.length := by
            simp only [List.length_cons] at h
            omega
          simp only [chunkStateTrace, List.get?_cons_succ, List.get_cons_succ,
            List.length_cons]
          rw [ih _ i h']
          refine or_congr Iff.rfl (or_congr Iff.rfl ?_)
          constructor
          · intro hh; omega
          · intro hh; omega

/-- C8 (amended): the chunker closes the current chunk after appending
segment `i` exactly when `(natural ∧ long) ∨ too_long ∨ last`, where
`natural` tests the FINAL character of the segment text (the code's
`/[.!?]$/`, which does not skip trailing spaces), `long` is buffer length
≥ 1000, `too_long` is buffer length ≥ 2000, and `last` means `i` is the
final segment. -/
theorem createChunks_cut_iff (t : List Segment) (i : ℕ) (h : i < t.length) :
    closesAfter t i = true ↔
      ((naturalBreak (t.get ⟨i, h⟩).text = true ∧ 1000 ≤ (bufAt t i).length)
        ∨ 2000 ≤ (bufAt t i).length ∨ i = t.length - 1) := by
  unfold closesAfter bufAt
  rw [decide_eq_true_eq]
  exact chunkStateTrace_closes 1000 t "" i h

/-- The `natural` predicate exactly as the claim words it: the last NON-SPACE
character of the segment text is `.`, `!` or `?`.  Stated from the claim's
wording for comparison with the code's `naturalBreak`. -/
def specNaturalBreak (t : String) : Bool :=
  match (t.data.reverse.dropWhile (fun c => c = ' ')).head? with
  | some c => c = '.' || c = '!' || c = '?'
  | none => false

/-- The claim's cut condition at segment `i`:
`(natural ∧ long) ∨ too_long ∨ last` with `natural` reading the last
non-space character. -/
def specCutCond (t : List Segment) (i : ℕ) : Bool :=
  match t.get? i with
  | none => false
  | some s =>
      (specNaturalBreak s.text && decide (1000 ≤ (bufAt t i).length))
        || decide (2000 ≤ (bufAt t i).length) || decide (i = t.length - 1)

/-- A segment text of 997 characters ending in `". "`: sentence-terminated
up to a trailing space. -/
def c8LongText : String := String.mk (List.replicate 995 'a' ++ ['.', ' '])

def c8Transcript : List Segment :=
  [⟨0, 5, c8LongText⟩, ⟨5, 9, "More text here."⟩]

set_option maxRecDepth 100000 in
/-- C8 counterexample: after segment 0 of `c8Transcript` the claim's cut
condition holds (last non-space character is `.`, buffer length 1005 ≥ 1000)
but the chunker does NOT close the chunk, because the code's
`/[.!?]$/` looks at the final character, which is a space.  The claimed
"exactly when" equivalence is therefore false. -/
theorem specCutCond_ne_closesAfter :
    specCutCond c8Transcript 0 = true ∧ closesAfter c8Transcript 0 = false := by
  constructor
  · decide
  · decide

/-- A one-segment transcript used to instantiate `createChunks_cut_iff`. -/
def c8Witness : List Segment := [⟨0, 2, "Hello world."⟩]

/-- Witness for `createChunks_cut_iff` at a concrete input: the single (and
hence last) segment closes the chunk. -/
theorem createChunks_cut_iff_witness : closesAfter c8Witness 0 = true :=
  (createChunks_cut_iff c8Witness 0 (by decide)).mpr (Or.inr (Or.inr (by decide)))

/-! ### C9: byte accounting of chunk metadata versus the transcript blob -/

theorem utf8Len_append (a b : String) : utf8Len (a ++ b) = utf8Len a + utf8Len b := by
  simp [utf8Len, String.data_append]

/-- Total UTF-8 byte count of the `[M:SS] text\n` lines of a transcript. -/
def linesBytes (t : List Segment) : ℕ := (t.map (fun s => utf8Len (mkLine s))).sum

theorem storeTranscriptContent_bytes_aux :
    ∀ (t : List Segment) (acc : String),
      utf8Len (t.foldl (fun content s => content ++ mkLine s) acc)
        = utf8Len acc + linesBytes t := by
  intro t
  induction t with
  | nil => intro acc; simp [linesBytes]
  | cons s rest ih =>
      intro acc
      simp only [List.foldl_cons, ih, utf8Len_append, linesBytes, List.map_cons,
        List.sum_cons]
      omega

theorem storeTranscriptContent_bytes (t : List Segment) :
    utf8Len (storeTranscriptContent t) = linesBytes t := by
  have h := storeTranscriptContent_bytes_aux t ""
  simpa [storeTranscriptContent, utf8Len] using h

/-- `chainFrom b cs e`: the chunks `cs` occupy consecutive byte ranges
starting at offset `b` and ending at offset `e`. -/
def chainFrom : ℕ → List Chunk → ℕ → Prop
  | b, [], e => b = e
  | b, c :: cs, e => c.byte_offset = b ∧ chainFrom (b + c.byte_length) cs e

theorem chunksFrom_chain (chunkSize : ℕ) :
    ∀ (t : List Segment) (b idx : ℕ) (cur : String) (startT endT startOff : ℕ),
      t ≠ [] → (cur ≠ "" → startOff = b) →
      chainFrom b (chunksFrom chunkSize b idx cur startT endT startOff t)
        (b + utf8Len cur + linesBytes t) := by
  intro t
  induction t with
  | nil => intro b idx cur startT endT startOff hne _; exact absurd rfl hne
  | cons s rest ih =>
      intro b idx cur startT endT startOff _ hoff
      show chainFrom b
        (if cutCond chunkSize s.text (cur ++ mkLine s) rest.isEmpty then
          ⟨idx, if cur = "" then s.start else startT, s.endTime,
            if cur = "" then b else startOff, utf8Len (cur ++ mkLine s),
            cur ++ mkLine s, VideoProcessor.extractKeywords (cur ++ mkLine s)⟩
          :: chunksFrom chunkSize (b + utf8Len (cur ++ mkLine s)) (idx + 1) ""
              (if cur = "" then s.start else startT) s.endTime
              (if cur = "" then b else startOff) rest
        else
          chunksFrom chunkSize b idx (cur ++ mkLine s)
            (if cur = "" then s.start else startT) s.endTime
            (if cur = "" then b else startOff) rest)
        (b + utf8Len cur + linesBytes (s :: rest))
      have hstart : (if cur = "" then b else startOff) = b := by
        by_cases hc : cur = ""
        · rw [if_pos hc]
        · rw [if_neg hc]; exact hoff hc
      have hbytes : utf8Len (cur ++ mkLine s) = utf8Len cur + utf8Len (mkLine s) :=
        utf8Len_append cur (mkLine s)
      have hlines : linesBytes (s :: rest) = utf8Len (mkLine s) + linesBytes rest := by
        simp [linesBytes]
      cases hcut : cutCond chunkSize s.text (cur ++ mkLine s) rest.isEmpty with
      | true =>
          rw [if_pos rfl]
          refine ⟨hstart, ?_⟩
          by_cases hrest : rest = []
          · subst hrest
            show b + utf8Len (cur ++ mkLine s) = b + utf8Len cur + linesBytes [s]
            have hl : linesBytes [s] = utf8Len (mkLine s) := by simp [linesBytes]
            rw [hbytes, hl]
            omega
          · have := ih (b + utf8Len (cur ++ mkLine s)) (idx + 1) ""
              (if cur = "" then s.start else startT) s.endTime
              (if cur = "" then b else startOff) hrest (fun h => absurd rfl h)
            have hE : b + utf8Len (cur ++ mkLine s) + utf8Len "" + linesBytes rest
                = b + utf8Len cur + linesBytes (s :: rest) := by
              have hemp : utf8Len "" = 0 := rfl
              rw [hbytes, hlines, hemp]
              omega
            rw [hE] at this
            exact this
      | false =>
          rw [if_neg (by decide : ¬ (false = true))]
          have hne' : rest ≠ [] := by
            intro hrest
            have : cutCond chunkSize s.text (cur ++ mkLine s) rest.isEmpty = true := by
              simp [cutCond, hrest]
            rw [hcut] at this
            exact Bool.noConfusion this
          have := ih b idx (cur ++ mkLine s)
            (if cur = "" then s.start else startT) s.endTime
            (if cur = "" then b else startOff) hne'
            (fun _ => hstart)
          have hE : b + utf8Len (cur ++ mkLine s) + linesBytes rest
              = b + utf8Len cur + linesBytes (s :: rest) := by
            rw [hbytes, hlines]
            omega
          rw [hE] at this
          exact this

theorem chainFrom_get0 :
    ∀ (cs : List Chunk) (b e : ℕ), chainFrom b cs e →
      ∀ h0 : 0 < cs.length, (cs.get ⟨0, h0⟩).byte_offset = b := by
  intro cs b e hch h0
  cases cs with
  | nil => exact absurd h0 (by simp)
  | cons c cs' => exact hch.1

theorem chainFrom_consec :
    ∀ (k : ℕ) (cs : List Chunk) (b e : ℕ), chainFrom b cs e →
      ∀ hk : k + 1 < cs.length,
        (cs.get ⟨k + 1, hk⟩).byte_offset
          = (cs.get ⟨k, Nat.lt_of_succ_lt hk⟩).byte_offset
            + (cs.get ⟨k, Nat.lt_of_succ_lt hk⟩).byte_length := by
  intro k
  induction k with
  | zero =>
      intro cs b e hch hk
      match cs, hk with
      | c₁ :: c₂ :: cs', _ =>
          obtain ⟨h1, h2, _⟩ := hch
          show c₂.byte_offset = c₁.byte_offset + c₁.byte_length
          rw [h1, h2]
  | succ k ihk =>
      intro cs b e hch hk
      match cs, hk with
      | c :: cs', hk =>
          have hk' : k + 1 < cs'.length := by
            simp only [List.length_cons] at hk
            omega
          exact ihk cs' (b + c.byte_length) e hch.2 hk'

theorem chainFrom_last :
    ∀ (cs : List Chunk) (b e : ℕ), chainFrom b cs e →
      ∀ hne : cs ≠ [],
        (cs.getLast hne).byte_offset + (cs.getLast hne).byte_length = e := by
  intro cs
  induction cs with
  | nil => intro b e _ hne; exact absurd rfl hne
  | cons c cs' ih =>
      intro b e hch hne
      by_cases hcs : cs' = []
      · subst hcs
        show c.byte_offset + c.byte_length = e
        rw [hch.1]
        exact hch.2
      · have hlast : (c :: cs').getLast hne = cs'.getLast hcs := by
          rw [List.getLast_cons hcs]
        rw [hlast]
        exact ih (b + c.byte_length) e hch.2 hcs

/-- C9: byte accounting.  For every transcript, the first chunk starts at
byte offset 0; consecutive chunks satisfy
`byte_offset[k+1] = byte_offset[k] + byte_length[k]`; and the last chunk's
`byte_offset + byte_length` equals the UTF-8 byte length of the transcript
blob that `storeTranscript` writes from the same `[M:SS] text\n` lines. -/
theorem createChunks_byte_accounting (t : List Segment) :
    (∀ h0 : 0 < (createChunks t).length,
        ((createChunks t).get ⟨0, h0⟩).byte_offset = 0)
    ∧ (∀ (k : ℕ) (hk : k + 1 < (createChunks t).length),
        ((createChunks t).get ⟨k + 1, hk⟩).byte_offset
          = ((createChunks t).get ⟨k, Nat.lt_of_succ_lt hk⟩).byte_offset
            + ((createChunks t).get ⟨k, Nat.lt_of_succ_lt hk⟩).byte_length)
    ∧ (∀ hne : createChunks t ≠ [],
        ((createChunks t).getLast hne).byte_offset
            + ((createChunks t).getLast hne).byte_length
          = utf8Len (storeTranscriptContent t)) := by
  cases ht : t with
  | nil =>
      refine ⟨?_, ?_, ?_⟩
      · intro h0; simp [createChunks, chunksFrom] at h0
      · intro k hk; simp [createChunks, chunksFrom] at hk
      · intro hne; exact (hne rfl).elim
  | cons s rest =>
      have hne : (s :: rest : List Segment) ≠ [] := List.cons_ne_nil s rest
      have hch := chunksFrom_chain 1000 (s :: rest) 0 0 "" 0 0 0 hne
        (fun h => absurd rfl h)
      have hch' : chainFrom 0 (createChunks (s :: rest))
          (utf8Len (storeTranscriptContent (s :: rest))) := by
        have hz : (0 : ℕ) + utf8Len "" + linesBytes (s :: rest)
            = utf8Len (storeTranscriptContent (s :: rest)) := by
          rw [storeTranscriptContent_bytes]
          have hemp : utf8Len "" = 0 := rfl
          omega
        rw [hz] at hch
        exact hch
      exact ⟨chainFrom_get0 _ _ _ hch',
        fun k hk => chainFrom_consec k _ _ _ hch' hk,
        chainFrom_last _ _ _ hch'⟩

/-- A small transcript used to instantiate `createChunks_byte_accounting`. -/
def c9Witness : List Segment := [⟨0, 2, "Hello."⟩, ⟨2, 4, "World"⟩]

/-- Witness for `createChunks_byte_accounting` at a concrete transcript:
chunk 0 starts at byte 0 and the last chunk ends exactly at the blob's byte
length. -/
theorem createChunks_byte_accounting_witness :
    ((createChunks c9Witness).get ⟨0, by decide⟩).byte_offset = 0
    ∧ ((createChunks c9Witness).getLast (by decide)).byte_offset
          + ((createChunks c9Witness).getLast (by decide)).byte_length
        = utf8Len (storeTranscriptContent c9Witness) :=
  ⟨(createChunks_byte_accounting c9Witness).1 (by decide),
   (createChunks_byte_accounting c9Witness).2.2 (by decide)⟩

/-! ## C10: the distributed lock (`lockService.js` `release`) -/

structure LockRow where
  resource_id : String
  lock_id : String
  expires_at : ℤ
deriving DecidableEq

/-- `DistributedLockService.release` (lockService.js).  The held lease is the
lock id recorded in the in-process `this.locks` map (an association list
here).  If no lease is held locally, return `false` and leave the store
untouched; otherwise delete exactly the rows matching BOTH
`resource_id = resourceId` and `lock_id = <held lease>`, and clear the local
entry.  Returns (result, local map after, store after). -/
def release (resourceId : String) (localLocks : List (String × String))
    (store : List LockRow) : Bool × List (String × String) × List LockRow :=
  match localLocks.lookup resourceId with
  | none => (false, localLocks, store)
  | some lockId =>
      (true,
       localLocks.filter (fun p => !(p.1 == resourceId)),
       store.filter (fun r => !(r.resource_id == resourceId && r.lock_id == lockId)))

/-- C10: lock fencing.  `release` deletes at most the row whose `lock_id`
equals the lease held by the releasing process: any deleted row matches both
the resource and the held lease, and any row whose `lock_id` differs from
the held lease — in particular a newer lease B acquired after the held lease
A — survives the release. -/
theorem release_fencing (resourceId : String) (localLocks : List (String × String))
    (store : List LockRow) :
    (∀ row ∈ store, row ∉ (release resourceId localLocks store).2.2 →
        ∃ held, localLocks.lookup resourceId = some held
          ∧ row.resource_id = resourceId ∧ row.lock_id = held)
    ∧ (∀ row ∈ store, ∀ held, localLocks.lookup resourceId = some held →
        row.lock_id ≠ held → row ∈ (release resourceId localLocks store).2.2) := by
  constructor
  · intro row hrow hgone
    unfold release at hgone
    cases hl : localLocks.lookup resourceId with
    | none => rw [hl] at hgone; exact absurd hrow hgone
    | some held =>
        rw [hl] at hgone
        refine ⟨held, rfl, ?_⟩
        by_contra hmatch
        apply hgone
        rw [List.mem_filter]
        refine ⟨hrow, ?_⟩
        simp only [Bool.not_eq_true']
        cases heq : (row.resource_id == resourceId && row.lock_id == held) with
        | false => rfl
        | true =>
            exfalso
            apply hmatch
            simp only [Bool.and_eq_true, beq_iff_eq] at heq
            exact heq
  · intro row hrow held hl hne
    unfold release
    rw [hl]
    rw [List.mem_filter]
    refine ⟨hrow, ?_⟩
    simp only [Bool.not_eq_true']
    cases heq : (row.resource_id == resourceId && row.lock_id == held) with
    | false => rfl
    | true =>
        exfalso
        simp only [Bool.and_eq_true, beq_iff_eq] at heq
        exact hne heq.2

/-- Witness for `release_fencing`: releasing a stale lease A for
`video-X` does not delete the row of a newer lease B. -/
theorem release_fencing_witness :
    (⟨"video-X", "leaseB", 100⟩ : LockRow)
      ∈ (release "video-X" [("video-X", "leaseA")]
          [⟨"video-X", "leaseB", 100⟩]).2.2 :=
  (release_fencing "video-X" [("video-X", "leaseA")]
      [⟨"video-X", "leaseB", 100⟩]).2
    ⟨"video-X", "leaseB", 100⟩ (by decide) "leaseA" (by decide) (by decide)

/-! ## C1: `storeChunks` (videoProcessor.js) -/

/-- A row of the `videos` table: internal primary key `id` and the provider
key `youtube_id`. -/
structure VideoRow where
  id : String
  youtube_id : String
deriving DecidableEq

/-- A row of the `transcript_chunks` table, as built by `storeChunks`'
`chunkRecords` mapping.  `video_id` holds `videos.id` (the internal key). -/
structure ChunkRow where
  video_id : String
  chunk_index : ℕ
  start_time : ℕ
  end_time : ℕ
  storage_path : String
  byte_offset : ℕ
  byte_length : ℕ
  keywords : List String
  embedding : Option (List ℚ)
deriving DecidableEq

structure PipelineDB where
  videos : List VideoRow
  chunks : List ChunkRow
deriving DecidableEq

/-- A pipeline chunk after `generateEmbeddings`: the chunk plus its vector
(null when the single embedding call failed). -/
structure EChunk where
  chunk : Chunk
  embedding : Option (List ℚ)
deriving DecidableEq

namespace VideoProcessor

/-- `storeChunks(videoId, chunks, transcriptPath)` (videoProcessor.js).
`videoId` is the YouTube id handed down from `processVideo`.  The delete
filters `transcript_chunks.video_id` — which stores the internal
`videos.id` — against that YouTube id.  The insert then looks up the video
row by `youtube_id` ('Video not found' aborts, modelled as `none`) and
inserts rows keyed by `video.id`.  (`chunk.byte_offset || 0` is the
identity on ℕ; `chunk.byte_length || chunk.text.length` falls back to the
character length when the byte length is 0.) -/
def storeChunks (videoId : String) (chunks : List EChunk) (transcriptPath : String)
    (db : PipelineDB) : Option PipelineDB :=
  let afterDelete := db.chunks.filter (fun r => !(r.video_id == videoId))
  match db.videos.find? (fun v => v.youtube_id == videoId) with
  | none => none
  | some video =>
      let chunkRecords := chunks.map (fun c =>
        ({ video_id := video.id,
           chunk_index := c.chunk.chunk_index,
           start_time := c.chunk.start_time,
           end_time := c.chunk.end_time,
           storage_path := transcriptPath,
           byte_offset := c.chunk.byte_offset,
           byte_length := if c.chunk.byte_length = 0 then c.chunk.text.length
                          else c.chunk.byte_length,
           keywords := c.chunk.keywords,
           embedding := c.embedding } : ChunkRow))
      some { db with chunks := afterDelete ++ chunkRecords }

end VideoProcessor

/-- A chunk row left over from a previous processing run of the video whose
internal id is `uuid-1`. -/
def c1OldRow : ChunkRow :=
  ⟨"uuid-1", 0, 0, 4, "abc123/transcript.txt", 0, 20, ["oldkeyword"], none⟩

def c1DB : PipelineDB := ⟨[⟨"uuid-1", "abc123"⟩], [c1OldRow]⟩

def c1NewChunk : EChunk :=
  ⟨⟨0, 0, 4, 0, 26, "[0:00] Fresh new content.\n", ["fresh"]⟩, none⟩

def c1Result : Option PipelineDB :=
  VideoProcessor.storeChunks "abc123" [c1NewChunk] "abc123/transcript.txt" c1DB

def c1ResultChunks : List ChunkRow := (c1Result.map (fun db => db.chunks)).getD []

/-- C1: re-processing video `abc123` (internal id `uuid-1`) does NOT replace
its chunk set.  The delete step filters `video_id` by the YouTube id
`"abc123"`, but the rows store the internal id `"uuid-1"`, so the stale row
survives and the new batch is appended: after the run the video's chunk set
contains rows from two different runs. -/
theorem storeChunks_keeps_stale_chunks :
    c1Result ≠ none
    ∧ c1OldRow ∈ c1ResultChunks
    ∧ (c1ResultChunks.filter (fun r => r.video_id == "uuid-1")).length = 2 := by
  refine ⟨?_, ?_, ?_⟩ <;> decide

/-! ## C5: channel pipeline statistics (`channelProcessor.js`) -/

/-- `isSeqPrefix pat l`: `pat` occurs at the start of `l`. -/
def isSeqPrefix : List Char → List Char → Bool
  | [], _ => true
  | _ :: _, [] => false
  | a :: as, b :: bs => decide (a = b) && isSeqPrefix as bs

/-- `containsSeq pat l`: `pat` occurs contiguously somewhere in `l`. -/
def containsSeq (pat : List Char) : List Char → Bool
  | [] => pat.isEmpty
  | b :: bs => isSeqPrefix pat (b :: bs) || containsSeq pat bs

/-- JS `s.includes(pat)`. -/
def jsIncludes (s pat : String) : Bool := containsSeq pat.data s.data

/-- `processing_error?.includes('transcript') || processing_error?.includes('captions')`. -/
def errMentionsTranscript : Option String → Bool
  | some e => jsIncludes e "transcript" || jsIncludes e "captions"
  | none => false

/-- The observable outcome of one iteration of the per-video loop of
`processChannel`:
* `alreadyCached` — the video row exists with `transcript_cached = true`;
* `upsertError`  — the `videos` upsert returned an error;
* `processedOk`  — `processVideoTranscript` returned `true`;
* `processFailed e` — it returned `false`; `e` is the `processing_error`
  read back from the video row;
* `threw` — an exception escaped the per-video `try`. -/
inductive VideoOutcome where
  | alreadyCached
  | upsertError
  | processedOk
  | processFailed (processingError : Option String)
  | threw
deriving DecidableEq

structure ChannelStats where
  processed : ℕ
  failed : ℕ
  existing : ℕ
  noTranscript : ℕ
deriving DecidableEq

/-- The counter updates of one iteration of the `processChannel` video loop. -/
def countVideo (st : ChannelStats) : VideoOutcome → ChannelStats
  | .alreadyCached =>
      { st with processed := st.processed + 1, existing := st.existing + 1 }
  | .upsertError => { st with failed := st.failed + 1 }
  | .processedOk => { st with processed := st.processed + 1 }
  | .processFailed e =>
      if errMentionsTranscript e then
        { st with failed := st.failed + 1, noTranscript := st.noTranscript + 1 }
      else
        { st with failed := st.failed + 1 }
  | .threw => { st with failed := st.failed + 1 }

def processChannelStats (outcomes : List VideoOutcome) : ChannelStats :=
  outcomes.foldl countVideo ⟨0, 0, 0, 0⟩

/-- The statistics tuple handed to `sendCompletionEmail`:
`(videosProcessed, totalVideos, existingVideos, noTranscriptVideos,
failedVideos)`. -/
def completionEmailPayload (outcomes : List VideoOutcome) : ℕ × ℕ × ℕ × ℕ × ℕ :=
  let st := processChannelStats outcomes
  (st.processed, outcomes.length, st.existing, st.noTranscript, st.failed)

/-- A channel of 5 videos: 2 already cached, 2 newly processed, and 1
without captions (its recorded `processing_error` is the pipeline's
'No transcript available'). -/
def c5Scenario : List VideoOutcome :=
  [.alreadyCached, .alreadyCached, .processedOk, .processedOk,
   .processFailed (some "No transcript available")]

/-- C5 counterexample: the claimed payload
`processed=4, existing=2, no_transcript=1, failed=0, total=5` is wrong —
the video without captions is also counted under `failed`
(`failedCount++` runs before the `noTranscriptCount` classification). -/
theorem completionEmailPayload_ne_claimed :
    completionEmailPayload c5Scenario ≠ (4, 5, 2, 1, 0) := by
  decide

theorem countVideo_noTranscript_le_failed (st : ChannelStats) (r : VideoOutcome)
    (h : st.noTranscript ≤ st.failed) :
    (countVideo st r).noTranscript ≤ (countVideo st r).failed := by
  cases r with
  | alreadyCached => simpa [countVideo] using h
  | upsertError => simp [countVideo]; omega
  | processedOk => simpa [countVideo] using h
  | processFailed e =>
      by_cases he : errMentionsTranscript e = true
      · simp [countVideo, he]; omega
      · simp only [countVideo, if_neg he]; omega
  | threw => simp [countVideo]; omega

theorem foldl_countVideo_le (outcomes : List VideoOutcome) :
    ∀ st : ChannelStats, st.noTranscript ≤ st.failed →
      (outcomes.foldl countVideo st).noTranscript
        ≤ (outcomes.foldl countVideo st).failed := by
  induction outcomes with
  | nil => intro st h; simpa using h
  | cons r rest ih =>
      intro st h
      simp only [List.foldl_cons]
      exact ih (countVideo st r) (countVideo_noTranscript_le_failed st r h)

/-- C5 (amended): a video failing for lack of a transcript is counted under
BOTH `failed` and `no_transcript` (`no_transcript` is a sub-count of
`failed`), so the scenario's completion email payload is
`processed=4, total=5, existing=2, no_transcript=1, failed=1`. -/
theorem completionEmailPayload_amended :
    completionEmailPayload c5Scenario = (4, 5, 2, 1, 1)
    ∧ ∀ outcomes : List VideoOutcome,
        (processChannelStats outcomes).noTranscript
          ≤ (processChannelStats outcomes).failed := by
  constructor
  · decide
  · intro outcomes
    exact foldl_countVideo_le outcomes ⟨0, 0, 0, 0⟩ (Nat.le_refl 0)

/-! ## C2: chat streaming and client disconnect (`chatService.js` `streamChat`) -/

structure ChatMessageRow where
  session_id : String
  role : String
  content : String
deriving DecidableEq

/-- The chat persistence state touched by `saveChatMessage`: the
`chat_messages` rows and, per `chat_sessions` update that actually executes
(`last_activity` / `message_count += 2`), one entry in `activityBumps`. -/
structure ChatDB where
  messages : List ChatMessageRow
  activityBumps : List String
deriving DecidableEq

/-- `saveChatMessage` (chatService.js): insert the user message, then insert
the assistant message.  The subsequent `chat_sessions` update builds its
payload with a `supabase.sql` tagged template — but the supabase-js client
created in server.js has no `.sql` member, so evaluating the payload throws
`TypeError` right after the two inserts, and the surrounding catch swallows
it.  The `last_activity` / `message_count` update therefore never executes
on any call: `activityBumps` is left unchanged. -/
def saveChatMessage (db : ChatDB) (sessionId userContent assistantResponse : String) :
    ChatDB :=
  { messages := db.messages ++
      [⟨sessionId, "user", userContent⟩,
       ⟨sessionId, "assistant", assistantResponse⟩],
    activityBumps := db.activityBumps }

inductive SSEFrame where
  | content (delta : String)
  | done
deriving DecidableEq

def concatStrings : List String → String
  | [] => ""
  | s :: rest => s ++ concatStrings rest

/-- The `for await` delta loop of `streamChat`.  At the top of each iteration
the code reads `this.activeStreams.get(streamId)`; once `disconnect` removes
the entry the read is falsy and stays falsy.  `flagClearedAt = some k` means
the flag reads false from the `k`-th read on.  Non-empty deltas are appended
to `fullResponse` and written as `content` frames; empty deltas are skipped.
Returns the content frames written and the accumulated `fullResponse`. -/
def consumeDeltas : Option ℕ → List String → List SSEFrame × String
  | _, [] => ([], "")
  | some 0, _ :: _ => ([], "")
  | k, d :: rest =>
      let r := consumeDeltas (k.map (· - 1)) rest
      if d = "" then r else (SSEFrame.content d :: r.1, d ++ r.2)

/-- `streamChat` (chatService.js) reduced to its observable effects: the SSE
frames written to the sink and the persistence state.  After the delta loop
ends — whether by stream end or by the disconnect `break` — the code falls
through to citation extraction, `saveChatMessage` (when a session id is
present) and the final `done` frame. -/
def streamChat (deltas : List String) (flagClearedAt : Option ℕ)
    (sessionId : Option String) (lastUserContent : String) (db : ChatDB) :
    List SSEFrame × ChatDB :=
  let r := consumeDeltas flagClearedAt deltas
  let db' := match sessionId with
    | some sid => saveChatMessage db sid lastUserContent r.2
    | none => db
  (r.1 ++ [SSEFrame.done], db')

/-- The stream of C2's counterexample: three deltas, flag cleared after the
first read, an active session. -/
def c2Run : List SSEFrame × ChatDB :=
  streamChat ["a", "b", "c"] (some 1) (some "s1") "hi" ⟨[], []⟩

/-- C2 counterexample: the client disconnects mid-stream (flag cleared after
one delta).  No further content frames are written — but the turn IS
persisted: the user message and the partial assistant message are inserted,
contradicting the claim that no persistence happens for that turn.  (The
session counters are indeed not updated, but that holds on every turn: the
counter update throws while building its payload and is swallowed.) -/
theorem streamChat_persists_after_disconnect :
    c2Run.1 = [SSEFrame.content "a", SSEFrame.done]
    ∧ c2Run.2.messages =
        [⟨"s1", "user", "hi"⟩, ⟨"s1", "assistant", "a"⟩]
    ∧ c2Run.2.messages ≠ []
    ∧ c2Run.2.activityBumps = [] := by
  refine ⟨?_, ?_, ?_, ?_⟩ <;> decide

theorem consumeDeltas_spec :
    ∀ (deltas : List String) (k : ℕ),
      consumeDeltas (some k) deltas
        = (((deltas.take k).filter (fun d => !(d == ""))).map SSEFrame.content,
           concatStrings (deltas.take k)) := by
  intro deltas
  induction deltas with
  | nil => intro k; simp [consumeDeltas, concatStrings]
  | cons d rest ih =>
      intro k
      cases k with
      | zero => simp [consumeDeltas, concatStrings]
      | succ j =>
          show (let r := consumeDeltas (some j) rest
                if d = "" then r else (SSEFrame.content d :: r.1, d ++ r.2))
            = _
          rw [ih j]
          by_cases hd : d = ""
          · subst hd
            rfl
          · simp only [if_neg hd]
            simp [List.filter_cons, hd, concatStrings]

/-- C2 (amended): once the active-stream flag is cleared, no further content
frames are written (every content frame comes from a delta consumed before
the clear point) — but persistence for the turn still happens: when a
session id is present, the user message and the partial assistant response
are inserted.  The session counters are never updated — on this or any other
turn — because the counter update's payload construction throws (the client
has no `.sql` API) after the inserts and is swallowed by the catch. -/
theorem streamChat_cancel_amended :
    ∀ (deltas : List String) (k : ℕ) (sessionId : Option String)
      (userContent : String) (db : ChatDB),
      (streamChat deltas (some k) sessionId userContent db).1
          = ((deltas.take k).filter (fun d => !(d == ""))).map SSEFrame.content
              ++ [SSEFrame.done]
      ∧ (∀ sid, sessionId = some sid →
          (streamChat deltas (some k) sessionId userContent db).2
            = ⟨db.messages ++
                [⟨sid, "user", userContent⟩,
                 ⟨sid, "assistant", concatStrings (deltas.take k)⟩],
               db.activityBumps⟩) := by
  intro deltas k sessionId userContent db
  constructor
  · show (consumeDeltas (some k) deltas).1 ++ [SSEFrame.done] = _
    rw [consumeDeltas_spec]
  · intro sid hsid
    subst hsid
    show saveChatMessage db sid userContent (consumeDeltas (some k) deltas).2 = _
    rw [consumeDeltas_spec]
    rfl

/-- Witness for `streamChat_cancel_amended` at the concrete disconnected
stream: only the pre-disconnect content frame is emitted, both messages are
persisted, and no session counter is bumped. -/
theorem streamChat_cancel_amended_witness :
    (streamChat ["a", "b", "c"] (some 1) (some "s1") "hi" ⟨[], []⟩).2
      = ⟨[⟨"s1", "user", "hi"⟩, ⟨"s1", "assistant", concatStrings (["a", "b", "c"].take 1)⟩],
         []⟩ :=
  (streamChat_cancel_amended ["a", "b", "c"] 1 (some "s1") "hi" ⟨[], []⟩).2 "s1" rfl

/-! ## C3 and C6: auth middleware and rate limiting -/

/-- `req.user` as populated by `authMiddleware`.  The middleware sets only
`{id, email, isApiKey}`; `premium` is absent (undefined) there and its only
use is the truthiness test `req.user.premium ? 'premium' : 'user'`, so it is
modelled as a `Bool` that `authMiddleware` sets to `false`. -/
structure AuthedUser where
  id : String
  email : Option String
  isApiKey : Bool
  premium : Bool
deriving DecidableEq

/-- JS `v || dflt` on an optional string: `undefined` and `""` are falsy. -/
def jsOrStr (v : Option String) (dflt : String) : String :=
  match v with
  | some s => if s = "" then dflt else s
  | none => dflt

inductive AuthResult where
  | unauthorized
  | next (user : AuthedUser)
deriving DecidableEq

/-- `authMiddleware` (middleware/auth.js): reject with 401 unless the
`x-api-key` header equals `BACKEND_API_KEY` (assumed set); otherwise attach
`req.user = {id: userId || 'api-client', email: userEmail, isApiKey: true}`
and continue. -/
def authMiddleware (backendApiKey : String)
    (apiKeyHeader userIdHeader userEmailHeader : Option String) : AuthResult :=
  if apiKeyHeader = some backendApiKey then
    .next ⟨jsOrStr userIdHeader "api-client", userEmailHeader, true, false⟩
  else .unauthorized

/-- The per-type, per-action cap table `RATE_LIMITS` (middleware/rateLimit.js):
`(hourly, daily)`, `none` meaning a null (disabled) window. -/
def RATE_LIMITS : String → String → Option (Option ℕ × Option ℕ)
  | "anonymous", "chat" => some (some 5, some 5)
  | "anonymous", "video_upload" => some (none, some 2)
  | "anonymous", "channel_process" => some (none, some 0)
  | "user", "chat" => some (some 5, some 5)
  | "user", "video_upload" => some (none, some 10)
  | "user", "channel_process" => some (none, some 1)
  | "premium", "chat" => some (some 50, some 200)
  | "premium", "video_upload" => some (none, some 50)
  | "premium", "channel_process" => some (none, some 10)
  | _, _ => none

structure RateEvent where
  identifier : String
  action : String
  created_at : ℤ
deriving DecidableEq

/-- The result record of `checkWindowLimit` / `checkLimit`.  `remaining` is
`none` for the reducer seed's `Infinity` and for the null `remaining` of an
unconfigured action. -/
structure WindowCheck where
  allowed : Bool
  remaining : Option ℕ
  limit : Option ℕ
  window : Option String
  resetAt : Option ℤ
deriving DecidableEq

/-- An entry of the 60-second memoisation cache: `{count, expires, resetAt}`. -/
structure CachedCount where
  count : ℕ
  expires : ℤ
  resetAt : ℤ
deriving DecidableEq

/-- `checkWindowLimit` (middleware/rateLimit.js).  Time is integer epoch
milliseconds; `setHours(h-1)` / `setDate(d-1)` are one hour / one day back.
The cache entry, when fresh, short-circuits the store count.  (The cache
write-back only affects later calls and is not returned.) -/
def checkWindowLimit (identifier action window : String) (limit : ℕ) (now : ℤ)
    (db : List RateEvent) (cached : Option CachedCount) : WindowCheck :=
  let windowMs : ℤ := if window = "hour" then 3600000 else 86400000
  let windowStart := now - windowMs
  let usageCount := (db.filter (fun e =>
      e.identifier == identifier && e.action == action
        && decide (windowStart ≤ e.created_at))).length
  let fresh : WindowCheck :=
    ⟨decide (0 < limit - usageCount), some (limit - usageCount), some limit,
     some window, some (windowStart + windowMs)⟩
  match cached with
  | some c =>
      if now < c.expires then
        ⟨decide (0 < limit - c.count), some (limit - c.count), some limit,
         some window, some c.resetAt⟩
      else fresh
  | none => fresh

/-- The comparison `current.remaining < prev.remaining` inside the reducer;
`none` plays the seed's `Infinity`. -/
def remainingLt : Option ℕ → Option ℕ → Bool
  | some a, some b => decide (a < b)
  | some _, none => true
  | none, _ => false

/-- The `reduce` callback picking the most restrictive window result. -/
def reduceRestrictive (prev current : WindowCheck) : WindowCheck :=
  if !current.allowed then current
  else if !prev.allowed then prev
  else if remainingLt current.remaining prev.remaining then current
  else prev

/-- `checkLimit` (middleware/rateLimit.js): run the configured hourly and
daily windows and reduce to the most restrictive result, seeded with
`{allowed: true, remaining: Infinity}`. -/
def checkLimit (identifier action userType : String) (now : ℤ)
    (db : List RateEvent) (hourCache dayCache : Option CachedCount) : WindowCheck :=
  match RATE_LIMITS userType action with
  | none => ⟨true, none, none, none, none⟩
  | some (hourly, daily) =>
      let results :=
        (match hourly with
         | some h => [checkWindowLimit identifier action "hour" h now db hourCache]
         | none => [])
        ++ (match daily with
            | some d => [checkWindowLimit identifier action "day" d now db dayCache]
            | none => [])
      results.foldl reduceRestrictive ⟨true, none, none, none, none⟩

/-- `getClientIp` (middleware/rateLimit.js): Cloudflare header, first hop of
X-Forwarded-For (trimmed), X-Real-IP, then the socket address, then
'unknown'; empty-string headers are falsy and fall through. -/
def getClientIp (cf xff xr socketIp : Option String) : String :=
  if (cf.getD "") ≠ "" then cf.getD ""
  else if (xff.getD "") ≠ "" then (((xff.getD "").splitOn ",").headD "").trim
  else if (xr.getD "") ≠ "" then xr.getD ""
  else if (socketIp.getD "") ≠ "" then socketIp.getD ""
  else "unknown"

/-- JS `value || 'unlimited'` on the numeric header values: both `null` and
`0` are falsy and yield `'unlimited'`. -/
def jsNumOrUnlimited : Option ℕ → String
  | some n => if n = 0 then "unlimited" else toString n
  | none => "unlimited"

/-- The 429 JSON body `{error, message, limit, window, resetAt}`. -/
structure RateLimitBody where
  error : String
  message : String
  limit : Option ℕ
  window : Option String
  resetAt : Option ℤ
deriving DecidableEq

/-- Observable outcome of one `rateLimitMiddleware(action)` invocation:
the response status (`some 429` when blocked, `none` when the chain
continues), the response headers set, the 429 body if any, and the rate
event recorded by `recordUsage` if any. -/
structure MWOutcome where
  status : Option ℕ
  headers : List (String × String)
  body : Option RateLimitBody
  recorded : Option RateEvent
deriving DecidableEq

/-- `rateLimitMiddleware(action)` (middleware/rateLimit.js).  API-key
authenticated requests (`req.user?.isApiKey`) skip rate limiting before any
window is consulted, any header is set, or any usage is recorded. -/
def rateLimitMiddleware (action : String) (user : Option AuthedUser)
    (cf xff xr socketIp : Option String) (now : ℤ) (db : List RateEvent)
    (hourCache dayCache : Option CachedCount) : MWOutcome :=
  if (user.map (fun u => u.isApiKey)).getD false then
    ⟨none, [], none, none⟩
  else
    let identifier := match user with
      | some u => "user:" ++ u.id
      | none => "ip:" ++ getClientIp cf xff xr socketIp
    let userType := match user with
      | some u => if u.premium then "premium" else "user"
      | none => "anonymous"
    let result := checkLimit identifier action userType now db hourCache dayCache
    let headers :=
      [("X-RateLimit-Limit", jsNumOrUnlimited result.limit),
       ("X-RateLimit-Remaining", jsNumOrUnlimited result.remaining)]
      ++ (match result.resetAt with
          | some r => [("X-RateLimit-Reset", toString r)]
          | none => [])
    if !result.allowed then
      ⟨some 429, headers,
       some ⟨"Rate limit exceeded",
             "Too many " ++ action ++ " requests. Please try again later.",
             result.limit, result.window, result.resetAt⟩,
       none⟩
    else
      ⟨none, headers, none, some ⟨identifier, action, now⟩⟩

/-- C3: every request that passes `authMiddleware` has `isApiKey = true`, so
`rateLimitMiddleware(action)` returns early: the chain continues (no 429),
no rate-limit header is set, and no usage is recorded — for any action,
window state, clock, or store contents. -/
theorem authed_requests_skip_rate_limit
    (backendApiKey : String) (apiKeyHeader userIdHeader userEmailHeader : Option String)
    (u : AuthedUser)
    (hauth : authMiddleware backendApiKey apiKeyHeader userIdHeader userEmailHeader
      = AuthResult.next u) :
    ∀ (action : String) (cf xff xr socketIp : Option String) (now : ℤ)
      (db : List RateEvent) (hourCache dayCache : Option CachedCount),
      rateLimitMiddleware action (some u) cf xff xr socketIp now db hourCache dayCache
        = ⟨none, [], none, none⟩ := by
  intro action cf xff xr socketIp now db hourCache dayCache
  have hkey : u.isApiKey = true := by
    unfold authMiddleware at hauth
    by_cases hk : apiKeyHeader = some backendApiKey
    · rw [if_pos hk] at hauth
      cases hauth
      rfl
    · rw [if_neg hk] at hauth
      exact absurd hauth (by intro h; exact AuthResult.noConfusion h)
  unfold rateLimitMiddleware
  rw [if_pos]
  show ((some u).map (fun u => u.isApiKey)).getD false = true
  simp [hkey]

/-- Witness for `authed_requests_skip_rate_limit`: a concrete request with a
matching API key skips rate limiting with an exhausted store. -/
theorem authed_requests_skip_rate_limit_witness :
    rateLimitMiddleware "chat" (some ⟨"api-client", none, true, false⟩)
      none none none none 0
      [⟨"user:api-client", "chat", 0⟩] none none
      = ⟨none, [], none, none⟩ :=
  authed_requests_skip_rate_limit "secret" (some "secret") none none
    ⟨"api-client", none, true, false⟩ (by decide)
    "chat" none none none none 0 [⟨"user:api-client", "chat", 0⟩] none none

/-- A non-API-key signed-in user of the `user` class. -/
def c6User : AuthedUser := ⟨"u1", none, false, false⟩

/-- Five chat events for `user:u1` recorded within the past hour
(`now = 0`). -/
def c6Events : List RateEvent :=
  [⟨"user:u1", "chat", -1000⟩, ⟨"user:u1", "chat", -2000⟩,
   ⟨"user:u1", "chat", -3000⟩, ⟨"user:u1", "chat", -4000⟩,
   ⟨"user:u1", "chat", -5000⟩]

/-- The response of the 6th chat call within the hour. -/
def c6Response : MWOutcome :=
  rateLimitMiddleware "chat" (some c6User) none none none none 0 c6Events none none

/-- C6: the 6th chat call of a `user`-class caller within one hour is denied
with HTTP 429 and the full `{error, message, limit, window, resetAt}` body —
but the `X-RateLimit-Remaining` header carries the string "unlimited", not
0: the code computes `result.remaining || 'unlimited'` and `0` is falsy in
JS. -/
theorem rateLimit_429_header_unlimited :
    c6Response.status = some 429
    ∧ c6Response.headers.lookup "X-RateLimit-Remaining" = some "unlimited"
    ∧ c6Response.headers.lookup "X-RateLimit-Remaining" ≠ some "0"
    ∧ c6Response.body
        = some ⟨"Rate limit exceeded",
                "Too many chat requests. Please try again later.",
                some 5, some "day", some 0⟩
    ∧ c6Response.recorded = none := by
  refine ⟨?_, ?_, ?_, ?_, ?_⟩ <;> decide

/-! ## C4: hybrid video-search scoring -/

/-- Stable insertion sort.  `before a b` says `a` may stay in front of `b`;
with `before a b = (cmp a b ≤ 0)` this computes exactly the result of the
(stable) JS `Array.prototype.sort(cmp)`. -/
def insertBy {α : Type} (before : α → α → Bool) (a : α) : List α → List α
  | [] => [a]
  | b :: l => if before a b then a :: b :: l else b :: insertBy before a l

def stableSortBy {α : Type} (before : α → α → Bool) : List α → List α
  | [] => []
  | a :: l => insertBy before a (stableSortBy before l)

/-- A `transcript_chunks` row as seen by the search functions, carrying the
cosine similarity computed in step 3 of `hybridChunkSearch` (the per-chunk
float cosine over the stored vector and the query vector; chunks with a null
vector get similarity 0).  Steps 4-6 of the search are pure functions of
this value, which is therefore an input of the embedding. -/
structure SChunk where
  id : ℕ
  keywords : List String
  text_preview : String
  similarity : ℚ
deriving DecidableEq

def lowerStr (s : String) : String := String.mk (s.data.map Char.toLower)

/-- Step 4 of `hybridChunkSearch`: a chunk is a keyword result when any
query keyword and any chunk keyword are case-insensitive substrings of one
another, in either direction. -/
def keywordMatchesChunk (queryKeywords : List String) (c : SChunk) : Bool :=
  queryKeywords.any (fun q =>
    c.keywords.any (fun k =>
      jsIncludes (lowerStr k) (lowerStr q) || jsIncludes (lowerStr q) (lowerStr k)))

/-- An entry of the `allResults` map: the chunk and its running score. -/
structure Scored where
  chunk : SChunk
  score : ℚ
deriving DecidableEq

/-- `allResults.set(result.id, {...result, score})` on the insertion-ordered
map: overwrite in place if the id is present, else append. -/
def upsertSet (m : List Scored) (c : SChunk) (score : ℚ) : List Scored :=
  if m.any (fun r => r.chunk.id == c.id) then
    m.map (fun r => if r.chunk.id == c.id then ⟨c, score⟩ else r)
  else m ++ [⟨c, score⟩]

/-- The keyword pass of step 5: boost an existing entry's score by 0.3
(`existing.score = (existing.score || 0) + 0.3`, the identity on 0), or
insert the chunk with base score 0.5. -/
def upsertBoost (m : List Scored) (c : SChunk) : List Scored :=
  if m.any (fun r => r.chunk.id == c.id) then
    m.map (fun r => if r.chunk.id == c.id then ⟨r.chunk, r.score + 3/10⟩ else r)
  else m ++ [⟨c, 1/2⟩]

/-- Step 5 of `hybridChunkSearch`: seed the map with the semantic top-set at
`score = similarity`, then fold the keyword results through the boost. -/
def mergeResults (semTop kw : List SChunk) : List Scored :=
  kw.foldl upsertBoost (semTop.foldl (fun m c => upsertSet m c c.similarity) [])

/-- The score stored for chunk id `i` (the map lookup on the values list). -/
def findScore (m : List Scored) (i : ℕ) : Option ℚ :=
  (m.find? (fun r => r.chunk.id == i)).map (fun r => r.score)

/-- `.sort((a, b) => b.similarity - a.similarity)`. -/
def sortBySimilarityDesc (chunks : List SChunk) : List SChunk :=
  stableSortBy (fun a b => decide (b.similarity ≤ a.similarity)) chunks

/-- `.sort((a, b) => (b.score || 0) - (a.score || 0))` (`score || 0` is the
identity here: every entry carries a numeric score). -/
def sortByScoreDesc (rs : List Scored) : List Scored :=
  stableSortBy (fun a b => decide (b.score ≤ a.score)) rs

/-- `hybridChunkSearch` (ragSearch module), steps 3b-6: rank all chunks by
similarity and keep the top `topK` as the semantic set; filter the keyword
results; merge with the 0.3 / 0.5 boosts; sort by final score and cut to
`topK`.  There is NO text-preview hit boost in this path. -/
def hybridChunkSearchScores (allChunks : List SChunk) (query : String)
    (topK : ℕ) : List Scored :=
  let queryKeywords := RagSearch.extractKeywords query
  let semTop := (sortBySimilarityDesc allChunks).take topK
  let keywordResults :=
    if 0 < queryKeywords.length then
      allChunks.filter (keywordMatchesChunk queryKeywords)
    else []
  (sortByScoreDesc (mergeResults semTop keywordResults)).take topK

namespace RagService

/-- Stop-word set of `RAGService.extractKeywords` (ragService.js). -/
def stopWords : List String :=
  ["the", "is", "at", "which", "on", "and", "a", "an", "in", "to",
   "for", "of", "with", "as", "by", "that", "this", "it", "from",
   "be", "are", "was", "were", "been", "have", "has", "had", "do",
   "does", "did", "will", "would", "could", "should", "may", "might"]

/-- `wordFreq[word] = (wordFreq[word] || 0) + 1` over an insertion-ordered
object, i.e. `Object.entries` order is first-occurrence order. -/
def bumpFreq (entries : List (String × ℕ)) (w : String) : List (String × ℕ) :=
  if entries.any (fun e => e.1 == w) then
    entries.map (fun e => if e.1 == w then (e.1, e.2 + 1) else e)
  else entries ++ [(w, 1)]

/-- `RAGService.extractKeywords` (ragService.js): tokenise, keep words of
length > 2 outside its own stop-word set, count frequencies, sort by count
descending (stable), take the top 5 words. -/
def extractKeywords (text : String) : List String :=
  let words := (tokenize text).filter
    (fun w => decide (2 < w.length) && !(stopWords.contains w))
  let freq := words.foldl bumpFreq []
  ((stableSortBy (fun a b => decide (b.2 ≤ a.2)) freq).take 5).map (fun e => e.1)

/-- `RAGService.searchVideoChunks` (ragService.js), scoring part: each RPC
result chunk's score is `similarity + keywordMatches * 0.1` where
`keywordMatches` counts query keywords occurring as substrings of the
lower-cased `text_preview`; then sort by score descending.  There is NO
0.3 / 0.5 keyword boost in this path. -/
def searchVideoChunksScores (query : String) (chunks : List SChunk) : List Scored :=
  let keywords := extractKeywords query
  let enhanced := chunks.map (fun c =>
    ⟨c, c.similarity
        + ((keywords.filter (fun k => jsIncludes (lowerStr c.text_preview) k)).length : ℚ)
          / 10⟩)
  stableSortBy (fun a b => decide (b.score ≤ a.score)) enhanced

end RagService

/-- Candidate chunk A of the claim's concrete example: semantic similarity
0.80, no keyword relation to the query. -/
def c4ChunkA : SChunk := ⟨0, ["zzzz"], "something else entirely", 4/5⟩

/-- Candidate chunk B: semantic similarity 0.60, keyword-matching the query,
with two query-keyword hits inside its text preview. -/
def c4ChunkB : SChunk := ⟨1, ["neural", "network"], "neural network basics", 3/5⟩


theorem findScore_cons (r : Scored) (m : List Scored) (i : ℕ) :
    findScore (r :: m) i
      = if r.chunk.id == i then some r.score else findScore m i := by
  by_cases h : (r.chunk.id == i) = true
  · unfold findScore
    rw [List.find?_cons_of_pos (p := fun x => x.chunk.id == i) m h, if_pos h]
    rfl
  · unfold findScore
    rw [List.find?_cons_of_neg (p := fun x => x.chunk.id == i) m h, if_neg h]

theorem findScore_boostMap_same (c : SChunk) :
    ∀ m : List Scored,
      findScore (m.map (fun r =>
          if r.chunk.id == c.id then ⟨r.chunk, r.score + 3/10⟩ else r)) c.id
        = (findScore m c.id).map (fun s => s + 3/10) := by
  intro m
  induction m with
  | nil => rfl
  | cons r m ih =>
      by_cases h : (r.chunk.id == c.id) = true
      · simp only [List.map_cons, if_pos h]
        rw [findScore_cons, findScore_cons, if_pos h, if_pos h]
        rfl
      · simp only [List.map_cons, if_neg h]
        rw [findScore_cons, findScore_cons, if_neg h, if_neg h]
        exact ih

theorem findScore_boostMap_other (c : SChunk) (i : ℕ) (hne : i ≠ c.id) :
    ∀ m : List Scored,
      findScore (m.map (fun r =>
          if r.chunk.id == c.id then ⟨r.chunk, r.score + 3/10⟩ else r)) i
        = findScore m i := by
  intro m
  induction m with
  | nil => rfl
  | cons r m ih =>
      by_cases h : (r.chunk.id == c.id) = true
      · have hrc : r.chunk.id = c.id := by simpa using h
        have hri : ¬ (r.chunk.id == i) = true := by
          simp only [beq_iff_eq, hrc]
          exact fun hh => hne hh.symm
        simp only [List.map_cons, if_pos h]
        rw [findScore_cons, findScore_cons, if_neg hri, if_neg hri]
        exact ih
      · simp only [List.map_cons, if_neg h]
        rw [findScore_cons, findScore_cons]
        by_cases hri : (r.chunk.id == i) = true
        · rw [if_pos hri, if_pos hri]
        · rw [if_neg hri, if_neg hri]
          exact ih

theorem findScore_setMap_same (c : SChunk) (v : ℚ) :
    ∀ m : List Scored,
      m.any (fun r => r.chunk.id == c.id) = true →
      findScore (m.map (fun r =>
          if r.chunk.id == c.id then ⟨c, v⟩ else r)) c.id
        = some v := by
  intro m
  induction m with
  | nil => intro h; exact absurd h (by simp)
  | cons r m ih =>
      intro hany
      by_cases h : (r.chunk.id == c.id) = true
      · simp only [List.map_cons, if_pos h]
        rw [findScore_cons, if_pos (by simp)]
      · have hany' : m.any (fun r => r.chunk.id == c.id) = true := by
          have hfalse : (r.chunk.id == c.id) = false := by
            simpa using h
          simp only [List.any_cons, hfalse, Bool.false_or] at hany
          exact hany
        simp only [List.map_cons, if_neg h]
        rw [findScore_cons, if_neg h]
        exact ih hany'

theorem findScore_setMap_other (c : SChunk) (v : ℚ) (i : ℕ) (hne : i ≠ c.id) :
    ∀ m : List Scored,
      findScore (m.map (fun r =>
          if r.chunk.id == c.id then ⟨c, v⟩ else r)) i
        = findScore m i := by
  intro m
  induction m with
  | nil => rfl
  | cons r m ih =>
      have hci : ¬ (c.id == i) = true := by
        simp only [beq_iff_eq]
        exact fun hh => hne hh.symm
      by_cases h : (r.chunk.id == c.id) = true
      · have hrc : r.chunk.id = c.id := by simpa using h
        have hri : ¬ (r.chunk.id == i) = true := by
          simp only [beq_iff_eq, hrc]
          exact fun hh => hne hh.symm
        simp only [List.map_cons, if_pos h]
        rw [findScore_cons, findScore_cons, if_neg hci, if_neg hri]
        exact ih
      · simp only [List.map_cons, if_neg h]
        rw [findScore_cons, findScore_cons]
        by_cases hri : (r.chunk.id == i) = true
        · rw [if_pos hri, if_pos hri]
        · rw [if_neg hri, if_neg hri]
          exact ih

theorem findScore_none_of_any_false (m : List Scored) (i : ℕ)
    (hany : m.any (fun r => r.chunk.id == i) = false) :
    findScore m i = none := by
  unfold findScore
  have hfind : m.find? (fun r => r.chunk.id == i) = none := by
    rw [List.find?_eq_none]
    intro x hx hpx
    have : m.any (fun r => r.chunk.id == i) = true :=
      List.any_eq_true.mpr ⟨x, hx, hpx⟩
    rw [hany] at this
    exact Bool.noConfusion this
  rw [hfind]
  rfl

theorem findScore_append_single (m : List Scored) (r : Scored) (i : ℕ) :
    findScore (m ++ [r]) i
      = (findScore m i).or (if r.chunk.id == i then some r.score else none) := by
  unfold findScore
  rw [List.find?_append]
  cases hf : List.find? (fun x => x.chunk.id == i) m with
  | some x => rfl
  | none =>
      by_cases h : (r.chunk.id == i) = true
      · rw [List.find?_cons_of_pos (p := fun x : Scored => x.chunk.id == i) [] h,
          if_pos h]
        rfl
      · rw [List.find?_cons_of_neg (p := fun x : Scored => x.chunk.id == i) [] h,
          if_neg h]
        rfl

theorem findScore_upsertSet_same (m : List Scored) (c : SChunk) (v : ℚ) :
    findScore (upsertSet m c v) c.id = some v := by
  unfold upsertSet
  by_cases hany : (m.any (fun r => r.chunk.id == c.id)) = true
  · rw [if_pos hany]
    exact findScore_setMap_same c v m hany
  · have hany' : m.any (fun r => r.chunk.id == c.id) = false := by simpa using hany
    rw [if_neg hany]
    rw [findScore_append_single, findScore_none_of_any_false m c.id hany',
      if_pos (by simp)]
    rfl

theorem findScore_upsertSet_other (m : List Scored) (c : SChunk) (v : ℚ)
    (i : ℕ) (hne : i ≠ c.id) :
    findScore (upsertSet m c v) i = findScore m i := by
  have hci : ¬ (c.id == i) = true := by
    simp only [beq_iff_eq]
    exact fun hh => hne hh.symm
  unfold upsertSet
  by_cases hany : (m.any (fun r => r.chunk.id == c.id)) = true
  · rw [if_pos hany]
    exact findScore_setMap_other c v i hne m
  · rw [if_neg hany]
    rw [findScore_append_single, if_neg hci]
    cases hf : findScore m i <;> rfl

theorem findScore_upsertBoost_same (m : List Scored) (c : SChunk) :
    findScore (upsertBoost m c) c.id
      = (match findScore m c.id with
         | some s => some (s + 3/10)
         | none => some (1/2)) := by
  unfold upsertBoost
  by_cases hany : (m.any (fun r => r.chunk.id == c.id)) = true
  · rw [if_pos hany]
    rw [findScore_boostMap_same]
    obtain ⟨x, hx, hpx⟩ := List.any_eq_true.mp hany
    cases hf : findScore m c.id with
    | some s => rfl
    | none =>
        exfalso
        unfold findScore at hf
        cases hfind : m.find? (fun r => r.chunk.id == c.id) with
        | some y => rw [hfind] at hf; exact Option.noConfusion hf
        | none =>
            rw [List.find?_eq_none] at hfind
            exact hfind x hx hpx
  · have hany' : m.any (fun r => r.chunk.id == c.id) = false := by simpa using hany
    rw [if_neg hany]
    rw [findScore_append_single, findScore_none_of_any_false m c.id hany',
      if_pos (by simp)]
    rfl

theorem findScore_upsertBoost_other (m : List Scored) (c : SChunk)
    (i : ℕ) (hne : i ≠ c.id) :
    findScore (upsertBoost m c) i = findScore m i := by
  have hci : ¬ (c.id == i) = true := by
    simp only [beq_iff_eq]
    exact fun hh => hne hh.symm
  unfold upsertBoost
  by_cases hany : (m.any (fun r => r.chunk.id == c.id)) = true
  · rw [if_pos hany]
    exact findScore_boostMap_other c i hne m
  · rw [if_neg hany]
    rw [findScore_append_single, if_neg hci]
    cases hf : findScore m i <;> rfl

theorem semFold_findScore :
    ∀ (semTop : List SChunk), (semTop.map (fun c => c.id)).Nodup →
      ∀ (m : List Scored) (i : ℕ),
        findScore (semTop.foldl (fun acc c => upsertSet acc c c.similarity) m) i
          = (match semTop.find? (fun c => c.id == i) with
             | some c => some c.similarity
             | none => findScore m i) := by
  intro semTop
  induction semTop with
  | nil => intro _ m i; rfl
  | cons c rest ih =>
      intro hnodup m i
      have hnd : (rest.map (fun c => c.id)).Nodup :=
        (List.nodup_cons.mp hnodup).2
      have hnotin : c.id ∉ rest.map (fun c => c.id) :=
        (List.nodup_cons.mp hnodup).1
      simp only [List.foldl_cons]
      rw [ih hnd]
      by_cases hci : (c.id == i) = true
      · have hieq : c.id = i := by simpa using hci
        rw [List.find?_cons_of_pos (p := fun x : SChunk => x.id == i) rest hci]
        have hrest : rest.find? (fun x => x.id == i) = none := by
          rw [List.find?_eq_none]
          intro x hx hpx
          have hxid : x.id = i := by simpa using hpx
          apply hnotin
          rw [hieq]
          rw [← hxid]
          exact List.mem_map_of_mem _ hx
        rw [hrest]
        rw [← hieq]
        exact findScore_upsertSet_same m c c.similarity
      · rw [List.find?_cons_of_neg (p := fun x : SChunk => x.id == i) rest hci]
        have hne : i ≠ c.id := by
          intro hh
          exact hci (by simp [hh])
        cases hrest : rest.find? (fun x => x.id == i) with
        | some x => rfl
        | none =>
            exact findScore_upsertSet_other m c c.similarity i hne

theorem kwFold_findScore :
    ∀ (kw : List SChunk), (kw.map (fun c => c.id)).Nodup →
      ∀ (m : List Scored) (i : ℕ),
        findScore (kw.foldl upsertBoost m) i
          = if (kw.map (fun c => c.id)).contains i then
              (match findScore m i with
               | some s => some (s + 3/10)
               | none => some (1/2))
            else findScore m i := by
  intro kw
  induction kw with
  | nil => intro _ m i; simp
  | cons c rest ih =>
      intro hnodup m i
      have hnd : (rest.map (fun c => c.id)).Nodup :=
        (List.nodup_cons.mp hnodup).2
      have hnotin : c.id ∉ rest.map (fun c => c.id) :=
        (List.nodup_cons.mp hnodup).1
      simp only [List.foldl_cons]
      rw [ih hnd]
      by_cases hci : (c.id == i) = true
      · have hieq : c.id = i := by simpa using hci
        subst hieq
        have hconsTrue : ((c :: rest).map (fun c => c.id)).contains c.id = true := by
          rw [List.map_cons, List.contains_cons]
          simp
        have hrestFalse : (rest.map (fun c => c.id)).contains c.id = false := by
          cases hcon : (rest.map (fun c => c.id)).contains c.id with
          | false => rfl
          | true =>
              exfalso
              exact hnotin (by simpa using hcon)
        rw [if_pos hconsTrue,
          if_neg (fun hh => by rw [hrestFalse] at hh; exact Bool.noConfusion hh)]
        exact findScore_upsertBoost_same m c
      · have hne : i ≠ c.id := by
          intro hh
          exact hci (by simp [hh])
        have hcond : ((c :: rest).map (fun c => c.id)).contains i
            = (rest.map (fun c => c.id)).contains i := by
          rw [List.map_cons, List.contains_cons]
          simp [hne]
        rw [hcond, findScore_upsertBoost_other m c i hne]

theorem find?_id_of_nodup :
    ∀ (l : List SChunk), (l.map (fun c => c.id)).Nodup →
      ∀ c ∈ l, l.find? (fun x => x.id == c.id) = some c := by
  intro l
  induction l with
  | nil => intro _ c hc; cases hc
  | cons a rest ih =>
      intro hnodup c hc
      have hnd : (rest.map (fun c => c.id)).Nodup :=
        (List.nodup_cons.mp hnodup).2
      have hnotin : a.id ∉ rest.map (fun c => c.id) :=
        (List.nodup_cons.mp hnodup).1
      rcases List.mem_cons.mp hc with rfl | hc'
      · exact List.find?_cons_of_pos (p := fun x : SChunk => x.id == c.id) rest (by simp)
      · have hane : ¬ (a.id == c.id) = true := by
          intro hh
          apply hnotin
          have : a.id = c.id := by simpa using hh
          rw [this]
          exact List.mem_map_of_mem _ hc'
        rw [List.find?_cons_of_neg (p := fun x : SChunk => x.id == c.id) rest hane]
        exact ih hnd c hc'


theorem c4_pipeline_eval :
    hybridChunkSearchScores [c4ChunkA, c4ChunkB] "neural network" 5
      = [⟨c4ChunkB, 9/10⟩, ⟨c4ChunkA, 4/5⟩] := by
  have hqk : RagSearch.extractKeywords "neural network" = ["neural", "network"] := by
    decide
  have hkA : keywordMatchesChunk ["neural", "network"] c4ChunkA = false := by decide
  have hkB : keywordMatchesChunk ["neural", "network"] c4ChunkB = true := by decide
  have hidA : c4ChunkA.id = 0 := rfl
  have hidB : c4ChunkB.id = 1 := rfl
  have hsA : c4ChunkA.similarity = 4/5 := rfl
  have hsB : c4ChunkB.similarity = 3/5 := rfl
  unfold hybridChunkSearchScores
  rw [hqk]
  norm_num [sortBySimilarityDesc, sortByScoreDesc, stableSortBy, insertBy,
    mergeResults, upsertSet, upsertBoost, List.filter_cons, hkA, hkB,
    hidA, hidB, hsA, hsB, findScore]

theorem c4_ragservice_eval :
    RagService.searchVideoChunksScores "neural network" [c4ChunkA, c4ChunkB]
      = [⟨c4ChunkA, 4/5⟩, ⟨c4ChunkB, 4/5⟩] := by
  have hqk : RagService.extractKeywords "neural network" = ["neural", "network"] := by
    decide
  have hitsA : (["neural", "network"].filter
      (fun k => jsIncludes (lowerStr c4ChunkA.text_preview) k)).length = 0 := by
    decide
  have hitsB : (["neural", "network"].filter
      (fun k => jsIncludes (lowerStr c4ChunkB.text_preview) k)).length = 2 := by
    decide
  have hsA : c4ChunkA.similarity = 4/5 := rfl
  have hsB : c4ChunkB.similarity = 3/5 := rfl
  unfold RagService.searchVideoChunksScores
  rw [hqk]
  norm_num [stableSortBy, insertBy, hitsA, hitsB, hsA, hsB]

/-- C4 counterexample: in `hybridChunkSearch` — the video-search path used by
the chat orchestrator — chunk B (similarity 0.60, keyword-matching the
query, 2 query-keyword hits in its preview) gets final score
0.60 + 0.3 = 0.90, NOT the claimed 0.60 + 0.2 + 0.3 = 1.10: this code path
has no `+0.1 × preview hits` term. -/
theorem hybridSearch_score_not_claimed :
    findScore (hybridChunkSearchScores [c4ChunkA, c4ChunkB] "neural network" 5) 1
      = some (9/10)
    ∧ ¬ (findScore (hybridChunkSearchScores [c4ChunkA, c4ChunkB] "neural network" 5) 1
      = some (11/10)) := by
  have hfs : findScore (hybridChunkSearchScores [c4ChunkA, c4ChunkB] "neural network" 5) 1
      = some (9/10) := by
    rw [c4_pipeline_eval]
    unfold findScore
    rw [List.find?_cons_of_pos (p := fun x : Scored => x.chunk.id == 1) _ (by decide)]
    rfl
  refine ⟨hfs, ?_⟩
  intro h
  rw [hfs] at h
  exact absurd (Option.some.inj h) (by norm_num)

/-- C4 (amended): the two boosts live in two different code paths and are
never combined.  In `hybridChunkSearch` the final score of a semantic-top
chunk is `similarity + 0.3` when it keyword-matches (else `similarity`), a
keyword-only chunk scores `0.5`, and there is no preview-hit term: in the
claim's example B scores 0.90 and still ranks above A (0.80).  In
`RAGService.searchVideoChunks` the score is `similarity + 0.1 × preview
hits` with no 0.3 / 0.5 boost: there B scores 0.80, tying A. -/
theorem hybridSearch_score_amended :
    (∀ (semTop kw : List SChunk),
        (semTop.map (fun c => c.id)).Nodup → (kw.map (fun c => c.id)).Nodup →
        ∀ c ∈ semTop,
          findScore (mergeResults semTop kw) c.id
            = some (c.similarity
                + (if (kw.map (fun c => c.id)).contains c.id then (3:ℚ)/10 else 0)))
    ∧ (∀ (semTop kw : List SChunk),
        (semTop.map (fun c => c.id)).Nodup → (kw.map (fun c => c.id)).Nodup →
        ∀ c ∈ kw, c.id ∉ semTop.map (fun c => c.id) →
          findScore (mergeResults semTop kw) c.id = some (1/2))
    ∧ hybridChunkSearchScores [c4ChunkA, c4ChunkB] "neural network" 5
        = [⟨c4ChunkB, 9/10⟩, ⟨c4ChunkA, 4/5⟩]
    ∧ RagService.searchVideoChunksScores "neural network" [c4ChunkA, c4ChunkB]
        = [⟨c4ChunkA, 4/5⟩, ⟨c4ChunkB, 4/5⟩] := by
  refine ⟨?_, ?_, c4_pipeline_eval, c4_ragservice_eval⟩
  · intro semTop kw hsem hkw c hc
    unfold mergeResults
    rw [kwFold_findScore kw hkw, semFold_findScore semTop hsem,
      find?_id_of_nodup semTop hsem c hc]
    by_cases hcon : ((kw.map (fun c => c.id)).contains c.id) = true
    · rw [if_pos hcon, if_pos hcon]
    · rw [if_neg hcon, if_neg hcon]
      rw [add_zero]
  · intro semTop kw hsem hkw c hc hnot
    unfold mergeResults
    rw [kwFold_findScore kw hkw, semFold_findScore semTop hsem]
    have hcon : ((kw.map (fun c => c.id)).contains c.id) = true := by
      have : c.id ∈ kw.map (fun c => c.id) := List.mem_map_of_mem _ hc
      simpa using this
    have hfind : semTop.find? (fun x => x.id == c.id) = none := by
      rw [List.find?_eq_none]
      intro x hx hpx
      apply hnot
      have : x.id = c.id := by simpa using hpx
      rw [← this]
      exact List.mem_map_of_mem _ hx
    rw [hfind, if_pos hcon]
    rw [findScore_none_of_any_false [] c.id (by simp)]

/-- Witness for `hybridSearch_score_amended` at the concrete example:
chunk B, in the semantic top-set with a keyword match, scores
`similarity + 0.3`. -/
theorem hybridSearch_score_amended_witness :
    findScore (mergeResults [c4ChunkA, c4ChunkB] [c4ChunkB]) c4ChunkB.id
      = some (c4ChunkB.similarity
          + (if (([c4ChunkB].map (fun c => c.id)).contains c4ChunkB.id)
              then (3:ℚ)/10 else 0)) :=
  hybridSearch_score_amended.1 [c4ChunkA, c4ChunkB] [c4ChunkB]
    (by decide) (by decide) c4ChunkB
    (List.mem_cons_of_mem c4ChunkA (List.mem_cons_self c4ChunkB []))
